import Mathlib

/-!
# Verification of the `nosql-dynamodb` expression-building and codec core

Shallow embedding of the repository's TypeScript sources:
* `src/dynamodb/DynamoUtils.ts`      — value codec (`toDynamoDBValue`, `fromDynamoDBValue`,
  `mapDynamoDBItemToType`)
* `src/dynamodb/DynamoValidator.ts`  — `validateFieldName`, `validateValue`, `validatePagination`
* `src/dynamodb/DynamoDBExpressionBuilder.ts` — `buildFilterExpression`, `buildSubExpression`,
  `addPartitionKeyExpression`, `addFilterExpressions`
* `src/dynamodb/DynamoDBService.ts`  — `prepareQueryParameters`, `processResults`

Modelling conventions:
* JavaScript values reaching the codec are modelled by `JVal`; numbers are modelled on the
  integer fragment of IEEE doubles (plus an explicit `nan`), since the claims under audit
  never exercise fractional number payloads through the codec.
* Exceptions are modelled with `Except String`; the `String` is the error message.
* JS objects are modelled as association lists recording assignments in order; the
  placeholder maps of an expression therefore record every placeholder binding that the
  source performs, so "no binding overwrites another" is `Nodup` of the recorded keys.
* `Array.prototype.sort` is modelled by `List.mergeSort` (ECMAScript requires a stable
  sort; the concrete algorithm is engine-specific).
-/

/-- JavaScript runtime values that can reach the codec / validator:
strings, numbers (integer fragment, plus NaN), booleans, arrays, plain objects,
and null/undefined (collapsed into one constructor, as the sources treat them alike). -/
inductive JVal where
  | null
  | str (s : String)
  | num (n : Int)
  | nan
  | bool (b : Bool)
  | arr (l : List JVal)
  | obj (m : List (String × JVal))
deriving Repr

/-- The DynamoDB `AttributeValue` wire shape: an object with seven optional tag fields.
Keeping all seven fields (rather than a disjoint sum) is faithful to the wire format,
where a malformed value may carry several tags at once. Field order matches the
precedence order in which `fromDynamoDBValue` inspects the tags: S, N, BOOL, SS, NS, M, L. -/
inductive AttributeValue where
  | mk (s : Option String) (n : Option String) (bool : Option Bool)
      (ss : Option (List String)) (ns : Option (List String))
      (m : Option (List (String × AttributeValue)))
      (l : Option (List AttributeValue))
deriving Repr

namespace AttributeValue

/-- `\x7bS: s\x7d` -/
def S (s : String) : AttributeValue := ⟨some s, none, none, none, none, none, none⟩

/-- `\x7bN: n\x7d` -/
def N (n : String) : AttributeValue := ⟨none, some n, none, none, none, none, none⟩

/-- `\x7bBOOL: b\x7d` -/
def BOOL (b : Bool) : AttributeValue := ⟨none, none, some b, none, none, none, none⟩

/-- `\x7bSS: l\x7d` -/
def SS (l : List String) : AttributeValue := ⟨none, none, none, some l, none, none, none⟩

/-- `\x7bNS: l\x7d` -/
def NS (l : List String) : AttributeValue := ⟨none, none, none, none, some l, none, none⟩

/-- `\x7bM: m\x7d` -/
def M (m : List (String × AttributeValue)) : AttributeValue :=
  ⟨none, none, none, none, none, some m, none⟩

/-- `\x7bL: l\x7d` -/
def L (l : List AttributeValue) : AttributeValue :=
  ⟨none, none, none, none, none, none, some l⟩

end AttributeValue

/-! ## Decimal numerals (the model of JS number-to-string and parseFloat) -/

/-- Decimal digits of `n`, most significant first; the model of JS `Number.prototype.toString`
restricted to naturals. -/
def natDigits (n : Nat) : List Char :=
  if h : n < 10 then [Char.ofNat (48 + n)]
  else natDigits (n / 10) ++ [Char.ofNat (48 + n % 10)]
  decreasing_by exact Nat.div_lt_self (by omega) (by omega)

/-- Decimal string of a natural number. -/
def natStr (n : Nat) : String := String.mk (natDigits n)

/-- Decimal string of an integer; the model of JS `toString` on integer-valued numbers. -/
def intRepr : Int → String
  | .ofNat m => natStr m
  | .negSucc m => String.mk ('-' :: natDigits (m + 1))

/-- Numeric value of a list of decimal digits. -/
def digitsVal (l : List Char) : Nat :=
  l.foldl (fun a c => 10 * a + (c.toNat - 48)) 0

/-- `true` iff `l` is a non-empty list of decimal digits. -/
def isDigits (l : List Char) : Bool := !l.isEmpty && l.all Char.isDigit

/-- Model of JS `parseFloat` on the decimal-integer fragment: `some n` when the whole
string is an optionally negated non-empty digit string, `none` (≈ NaN) otherwise.
(Real `parseFloat` also accepts fractional and prefixed forms; those never appear in
strings produced by this library's encoder, which only emits `intRepr`/`"NaN"`.) -/
def parseFloatInt (s : String) : Option Int :=
  match s.data with
  | '-' :: rest => if isDigits rest then some (-(digitsVal rest : Int)) else none
  | l => if isDigits l then some (digitsVal l : Int) else none

/-- Decode the `N`/`NS` payload string: a parsed integer, or NaN for anything else
(JS `parseFloat("NaN")` and `parseFloat(<garbage>)` are both NaN). -/
def decodeNumStr (s : String) : JVal :=
  match parseFloatInt s with
  | some n => .num n
  | none => .nan

/-! ## The codec — `src/dynamodb/DynamoUtils.ts` -/

/-- JS `typeof` on the modelled values (`typeof NaN === "number"`,
`typeof null === "object"`, arrays are `"object"`). -/
def jsTypeof : JVal → String
  | .null => "object"
  | .str _ => "string"
  | .num _ => "number"
  | .nan => "number"
  | .bool _ => "boolean"
  | .arr _ => "object"
  | .obj _ => "object"

/-- Payload of a string value (used under the all-strings guard of the encoder). -/
def getStr : JVal → String
  | .str s => s
  | _ => ""

/-- JS `toString` of a number value (used under the all-numbers guard of the encoder). -/
def numToString : JVal → String
  | .num n => intRepr n
  | .nan => "NaN"
  | _ => ""

mutual

/-- `toDynamoDBValue` (DynamoUtils.ts lines 4–37): encode a runtime value as an
`AttributeValue`. Throws on null/undefined, empty arrays; a homogeneous string or
number array becomes `SS`/`NS`, any other array an `L`, a plain object an `M`. -/
def toDynamoDBValue : JVal → Except String AttributeValue
  | .null => .error "Value cannot be null or undefined"
  | .arr value =>
    if value.isEmpty then .error "Empty arrays not supported"
    else
      let firstType := jsTypeof (value.headD .nan)
      if value.all (fun item => jsTypeof item = firstType) then
        if firstType = "string" then .ok (.SS (value.map getStr))
        else if firstType = "number" then .ok (.NS (value.map numToString))
        else
          match toDynamoDBList value with
          | .ok l => .ok (.L l)
          | .error e => .error e
      else
        match toDynamoDBList value with
        | .ok l => .ok (.L l)
        | .error e => .error e
  | .str s => .ok (.S s)
  | .num n => .ok (.N (intRepr n))
  | .nan => .ok (.N "NaN")
  | .bool b => .ok (.BOOL b)
  | .obj m =>
    match toDynamoDBObj m with
    | .ok entries => .ok (.M entries)
    | .error e => .error e

/-- Encode every element of an array (the `value.map(toDynamoDBValue)` of the `L` branch). -/
def toDynamoDBList : List JVal → Except String (List AttributeValue)
  | [] => .ok []
  | v :: vs =>
    match toDynamoDBValue v with
    | .error e => .error e
    | .ok a =>
      match toDynamoDBList vs with
      | .error e => .error e
      | .ok rest => .ok (a :: rest)

/-- Encode every entry of a plain object (the `Object.entries` loop of the `M` branch). -/
def toDynamoDBObj : List (String × JVal) → Except String (List (String × AttributeValue))
  | [] => .ok []
  | (k, v) :: kvs =>
    match toDynamoDBValue v with
    | .error e => .error e
    | .ok a =>
      match toDynamoDBObj kvs with
      | .error e => .error e
      | .ok rest => .ok ((k, a) :: rest)

end

mutual

/-- `fromDynamoDBValue` (DynamoUtils.ts lines 39–50): decode an `AttributeValue`,
inspecting the tags in the fixed order S, N, BOOL, SS, NS, M, L and returning null
when no tag is defined. On a well-typed `M` payload the source calls
`mapDynamoDBItemToType`, whose not-an-object skip branch is vacuous there (every
entry of an `M` payload is an attribute object); `fromDynamoDBObj` is that
restriction — see `mapDynamoDBItemToType_wrapEntries`. -/
def fromDynamoDBValue : AttributeValue → JVal
  | ⟨some s, _, _, _, _, _, _⟩ => .str s
  | ⟨none, some n, _, _, _, _, _⟩ => decodeNumStr n
  | ⟨none, none, some b, _, _, _, _⟩ => .bool b
  | ⟨none, none, none, some ss, _, _, _⟩ => .arr (ss.map .str)
  | ⟨none, none, none, none, some ns, _, _⟩ => .arr (ns.map decodeNumStr)
  | ⟨none, none, none, none, none, some m, _⟩ => .obj (fromDynamoDBObj m)
  | ⟨none, none, none, none, none, none, some l⟩ => .arr (fromDynamoDBList l)
  | ⟨none, none, none, none, none, none, none⟩ => .null

/-- Decode every element of an `L` payload. -/
def fromDynamoDBList : List AttributeValue → List JVal
  | [] => []
  | v :: vs => fromDynamoDBValue v :: fromDynamoDBList vs

/-- Decode every entry of an `M` payload. -/
def fromDynamoDBObj : List (String × AttributeValue) → List (String × JVal)
  | [] => []
  | (k, v) :: kvs => (k, fromDynamoDBValue v) :: fromDynamoDBObj kvs

end

/-- A member of a raw item as it arrives from the wire: either not an object (or a
falsy value) — which `mapDynamoDBItemToType` skips — or an attribute object. -/
inductive RawMem where
  | nonObj
  | attr (a : AttributeValue)

/-- A raw item as it arrives from the wire: null / not an object, or an object with
string keys. -/
inductive RawItem where
  | notObj
  | obj (entries : List (String × RawMem))

/-- `mapDynamoDBItemToType` (DynamoUtils.ts lines 52–63): a null or non-object input
yields an empty mapping; otherwise every key whose value is not itself an object is
skipped and every other value is decoded. -/
def mapDynamoDBItemToType : RawItem → List (String × JVal)
  | .notObj => []
  | .obj es =>
    es.filterMap fun kv =>
      match kv.2 with
      | .nonObj => none
      | .attr a => some (kv.1, fromDynamoDBValue a)

/-- View a well-typed attribute record as a raw wire item. -/
def wrapEntries (es : List (String × AttributeValue)) : RawItem :=
  .obj (es.map fun kv => (kv.1, .attr kv.2))

/-- On a well-typed record the skip branch of `mapDynamoDBItemToType` is vacuous and
it agrees with the entry-wise decoder used inside `fromDynamoDBValue`. -/
theorem mapDynamoDBItemToType_wrapEntries (es : List (String × AttributeValue)) :
    mapDynamoDBItemToType (wrapEntries es) = fromDynamoDBObj es := by
  induction es with
  | nil => rfl
  | cons kv rest ih =>
    cases kv with
    | mk k v =>
      simp [mapDynamoDBItemToType, wrapEntries, fromDynamoDBObj] at *
      exact ih

/-! ## Arithmetic facts about the decimal numeral model -/

theorem digit_toNat {d : Nat} (h : d < 10) : (Char.ofNat (48 + d)).toNat = 48 + d := by
  interval_cases d <;> decide

theorem digit_isDigit {d : Nat} (h : d < 10) : (Char.ofNat (48 + d)).isDigit = true := by
  interval_cases d <;> decide

theorem digitsVal_append_singleton (xs : List Char) (c : Char) :
    digitsVal (xs ++ [c]) = 10 * digitsVal xs + (c.toNat - 48) := by
  simp [digitsVal, List.foldl_append]

theorem natDigits_all_digits (n : Nat) : ∀ c ∈ natDigits n, c.isDigit = true := by
  rw [natDigits]
  split
  · next h => intro c hc; simp at hc; subst hc; exact digit_isDigit h
  · next h =>
    intro c hc
    have ih := natDigits_all_digits (n / 10)
    simp at hc
    rcases hc with hc | hc
    · exact ih c hc
    · subst hc; exact digit_isDigit (Nat.mod_lt _ (by omega))
termination_by n
decreasing_by exact Nat.div_lt_self (by omega) (by omega)

theorem natDigits_ne_nil (n : Nat) : natDigits n ≠ [] := by
  rw [natDigits]
  split <;> simp

theorem digitsVal_natDigits (n : Nat) : digitsVal (natDigits n) = n := by
  rw [natDigits]
  split
  · next h =>
    simp [digitsVal, List.foldl, digit_toNat h]
  · next h =>
    have ih := digitsVal_natDigits (n / 10)
    rw [digitsVal_append_singleton, ih, digit_toNat (Nat.mod_lt _ (by omega))]
    omega
termination_by n
decreasing_by exact Nat.div_lt_self (by omega) (by omega)

theorem natDigits_inj {a b : Nat} (h : natDigits a = natDigits b) : a = b := by
  have ha := digitsVal_natDigits a
  have hb := digitsVal_natDigits b
  rw [h] at ha; omega

theorem natDigits_no_underscore (n : Nat) : '_' ∉ natDigits n := by
  intro h
  have := natDigits_all_digits n '_' h
  simp [Char.isDigit] at this

theorem isDigits_natDigits (n : Nat) : isDigits (natDigits n) = true := by
  have h1 := natDigits_ne_nil n
  have h2 := natDigits_all_digits n
  simp [isDigits, List.isEmpty_iff, h1]
  exact h2

theorem parseFloatInt_natStr (n : Nat) : parseFloatInt (natStr n) = some (n : Int) := by
  have hne := natDigits_ne_nil n
  have hdig := natDigits_all_digits n
  rw [parseFloatInt]
  rcases hhead : natDigits n with _ | ⟨c, cs⟩
  · exact absurd hhead hne
  · have hcd : c.isDigit = true := hdig c (by rw [hhead]; exact List.mem_cons_self _ _)
    have hcne : c ≠ '-' := by
      intro h; subst h; simp [Char.isDigit] at hcd
    have : (natStr n).data = c :: cs := by simp [natStr, hhead]
    rw [this]
    have hid : isDigits (c :: cs) = true := by
      rw [← hhead]; exact isDigits_natDigits n
    split
    · next heq =>
      exact absurd (List.head_eq_of_cons_eq heq) hcne
    · next =>
      rw [hid]
      simp
      have := digitsVal_natDigits n
      rw [hhead] at this
      omega

theorem parseFloatInt_intRepr (n : Int) : parseFloatInt (intRepr n) = some n := by
  cases n with
  | ofNat m => exact parseFloatInt_natStr m
  | negSucc m =>
    rw [intRepr, parseFloatInt]
    simp [isDigits_natDigits (m + 1)]
    have := digitsVal_natDigits (m + 1)
    rw [this]
    rw [Int.negSucc_eq]
    omega

theorem decodeNumStr_intRepr (n : Int) : decodeNumStr (intRepr n) = .num n := by
  rw [decodeNumStr, parseFloatInt_intRepr]

theorem decodeNumStr_nanStr : decodeNumStr "NaN" = .nan := rfl

/-! ## Round-trip of the codec -/

theorem eq_str_of_jsTypeof_string {x : JVal} (h : jsTypeof x = "string") :
    x = .str (getStr x) := by
  cases x <;> simp only [jsTypeof] at h <;> first | rfl | exact absurd h (by decide)

theorem decodeNumStr_numToString {x : JVal} (h : jsTypeof x = "number") :
    decodeNumStr (numToString x) = x := by
  cases x <;> simp only [jsTypeof] at h <;> first
    | exact decodeNumStr_intRepr _
    | rfl
    | exact absurd h (by decide)

theorem map_self_of_mem_eq {α : Type} {f : α → α} :
    ∀ {l : List α}, (∀ x ∈ l, f x = x) → l.map f = l := by
  intro l h
  induction l with
  | nil => rfl
  | cons a t ih =>
    rw [List.map_cons, h a (List.mem_cons_self a t),
      ih fun x hx => h x (List.mem_cons_of_mem a hx)]

mutual

theorem fromDynamoDBValue_toDynamoDBValue :
    ∀ (v : JVal) (a : AttributeValue), toDynamoDBValue v = .ok a → fromDynamoDBValue a = v
  | .null, a, h => by simp [toDynamoDBValue] at h
  | .str s, a, h => by
    simp [toDynamoDBValue] at h
    subst h; rfl
  | .num n, a, h => by
    simp [toDynamoDBValue] at h
    subst h
    simp [fromDynamoDBValue, AttributeValue.N]
    exact decodeNumStr_intRepr n
  | .nan, a, h => by
    simp [toDynamoDBValue] at h
    subst h; rfl
  | .bool b, a, h => by
    simp [toDynamoDBValue] at h
    subst h; rfl
  | .arr l, a, h => by
    rw [toDynamoDBValue] at h
    by_cases hemp : l.isEmpty
    · simp [hemp] at h
    · simp only [hemp, if_false, Bool.false_eq_true] at h
      by_cases hall : l.all (fun item => jsTypeof item = jsTypeof (l.headD .nan))
      · simp only [hall, if_true] at h
        by_cases hstr : jsTypeof (l.headD .nan) = "string"
        · simp only [hstr, if_true, Except.ok.injEq] at h
          subst h
          show JVal.arr ((l.map getStr).map JVal.str) = JVal.arr l
          rw [List.map_map]
          rw [map_self_of_mem_eq]
          intro x hx
          have hx' := List.all_eq_true.mp hall x hx
          simp only [decide_eq_true_eq] at hx'
          rw [hstr] at hx'
          exact (eq_str_of_jsTypeof_string hx').symm
        · simp only [hstr, if_false] at h
          by_cases hnum : jsTypeof (l.headD .nan) = "number"
          · simp only [hnum, if_true, Except.ok.injEq] at h
            subst h
            show JVal.arr ((l.map numToString).map decodeNumStr) = JVal.arr l
            rw [List.map_map]
            rw [map_self_of_mem_eq]
            intro x hx
            have hx' := List.all_eq_true.mp hall x hx
            simp only [decide_eq_true_eq] at hx'
            rw [hnum] at hx'
            exact decodeNumStr_numToString hx'
          · simp only [hnum, if_false] at h
            cases hl : toDynamoDBList l with
            | error e => rw [hl] at h; exact absurd h (by simp)
            | ok as =>
              rw [hl] at h
              simp only [Except.ok.injEq] at h
              subst h
              show JVal.arr (fromDynamoDBList as) = JVal.arr l
              rw [fromDynamoDBList_toDynamoDBList l as hl]
      · simp only [hall, if_false, Bool.false_eq_true] at h
        cases hl : toDynamoDBList l with
        | error e => rw [hl] at h; exact absurd h (by simp)
        | ok as =>
          rw [hl] at h
          simp only [Except.ok.injEq] at h
          subst h
          show JVal.arr (fromDynamoDBList as) = JVal.arr l
          rw [fromDynamoDBList_toDynamoDBList l as hl]
  | .obj m, a, h => by
    rw [toDynamoDBValue] at h
    cases hm : toDynamoDBObj m with
    | error e => rw [hm] at h; exact absurd h (by simp)
    | ok es =>
      rw [hm] at h
      simp only [Except.ok.injEq] at h
      subst h
      show JVal.obj (fromDynamoDBObj es) = JVal.obj m
      rw [fromDynamoDBObj_toDynamoDBObj m es hm]

theorem fromDynamoDBList_toDynamoDBList :
    ∀ (l : List JVal) (as : List AttributeValue),
      toDynamoDBList l = .ok as → fromDynamoDBList as = l
  | [], as, h => by
    simp [toDynamoDBList] at h
    subst h; rfl
  | v :: vs, as, h => by
    rw [toDynamoDBList] at h
    cases hv : toDynamoDBValue v with
    | error e => rw [hv] at h; exact absurd h (by simp)
    | ok a =>
      rw [hv] at h
      cases hvs : toDynamoDBList vs with
      | error e => rw [hvs] at h; exact absurd h (by simp)
      | ok rest =>
        rw [hvs] at h
        simp only [Except.ok.injEq] at h
        subst h
        rw [fromDynamoDBList]
        rw [fromDynamoDBValue_toDynamoDBValue v a hv,
            fromDynamoDBList_toDynamoDBList vs rest hvs]

theorem fromDynamoDBObj_toDynamoDBObj :
    ∀ (m : List (String × JVal)) (es : List (String × AttributeValue)),
      toDynamoDBObj m = .ok es → fromDynamoDBObj es = m
  | [], es, h => by
    simp [toDynamoDBObj] at h
    subst h; rfl
  | (k, v) :: kvs, es, h => by
    rw [toDynamoDBObj] at h
    cases hv : toDynamoDBValue v with
    | error e => rw [hv] at h; exact absurd h (by simp)
    | ok a =>
      rw [hv] at h
      cases hkvs : toDynamoDBObj kvs with
      | error e => rw [hkvs] at h; exact absurd h (by simp)
      | ok rest =>
        rw [hkvs] at h
        simp only [Except.ok.injEq] at h
        subst h
        rw [fromDynamoDBObj]
        rw [fromDynamoDBValue_toDynamoDBValue v a hv,
            fromDynamoDBObj_toDynamoDBObj kvs rest hkvs]

end

/-- C3: for every value `v` the encoder accepts (not null/undefined, no empty arrays —
exactly the inputs on which `toDynamoDBValue` succeeds), decoding the encoding yields
`v` back: `fromDynamoDBValue (toDynamoDBValue v) = v`. In this model a mixed-type
array decodes to an ordered list that is element-wise equal, which coincides with
list equality. -/
theorem claim_C3_roundtrip (v : JVal) (a : AttributeValue)
    (h : toDynamoDBValue v = .ok a) : fromDynamoDBValue a = v :=
  fromDynamoDBValue_toDynamoDBValue v a h

theorem toDynamoDBValue_witness_eval :
    toDynamoDBValue (JVal.obj [("a", .arr [.str "x", .num 2]), ("b", .arr [.str "u", .str "v"])])
      = .ok (.M [("a", .L [.S "x", .N "2"]), ("b", .SS ["u", "v"])]) := by
  simp [toDynamoDBValue, toDynamoDBObj, toDynamoDBList, jsTypeof, getStr, intRepr,
    natStr, natDigits]

theorem claim_C3_roundtrip_witness :
    toDynamoDBValue (JVal.obj [("a", .arr [.str "x", .num 2]), ("b", .arr [.str "u", .str "v"])])
      = .ok (.M [("a", .L [.S "x", .N "2"]), ("b", .SS ["u", "v"])])
  ∧ fromDynamoDBValue (.M [("a", .L [.S "x", .N "2"]), ("b", .SS ["u", "v"])])
      = JVal.obj [("a", .arr [.str "x", .num 2]), ("b", .arr [.str "u", .str "v"])] :=
  ⟨toDynamoDBValue_witness_eval, claim_C3_roundtrip _ _ toDynamoDBValue_witness_eval⟩

/-- C9: decoding is total and never raises. An attribute value with no defined tag
decodes to null; `mapDynamoDBItemToType` returns an empty mapping on a null or
non-object input, skips every key whose value is not itself an object, and decodes
every other key. -/
theorem claim_C9_decode_total :
    fromDynamoDBValue ⟨none, none, none, none, none, none, none⟩ = .null
  ∧ mapDynamoDBItemToType .notObj = []
  ∧ (∀ (k : String) (es : List (String × RawMem)),
      mapDynamoDBItemToType (.obj ((k, .nonObj) :: es)) = mapDynamoDBItemToType (.obj es))
  ∧ (∀ (k : String) (a : AttributeValue) (es : List (String × RawMem)),
      mapDynamoDBItemToType (.obj ((k, .attr a) :: es)) =
        (k, fromDynamoDBValue a) :: mapDynamoDBItemToType (.obj es)) :=
  ⟨rfl, rfl,
   fun k es => by simp [mapDynamoDBItemToType],
   fun k a es => by simp [mapDynamoDBItemToType]⟩

/-- C10: `fromDynamoDBValue` inspects the tags in the fixed precedence order
S, N, BOOL, SS, NS, M, L: a value carrying several defined tags decodes exactly like
the value carrying only the first defined tag of that order, all later tags being
ignored; in particular a value with both an S and an N component decodes to the
S string. -/
theorem claim_C10_tag_precedence :
    (∀ s n b ss ns m l, fromDynamoDBValue ⟨some s, n, b, ss, ns, m, l⟩ = .str s)
  ∧ (∀ n b ss ns m l, fromDynamoDBValue ⟨none, some n, b, ss, ns, m, l⟩ =
      fromDynamoDBValue (.N n))
  ∧ (∀ b ss ns m l, fromDynamoDBValue ⟨none, none, some b, ss, ns, m, l⟩ = .bool b)
  ∧ (∀ ss ns m l, fromDynamoDBValue ⟨none, none, none, some ss, ns, m, l⟩ =
      fromDynamoDBValue (.SS ss))
  ∧ (∀ ns m l, fromDynamoDBValue ⟨none, none, none, none, some ns, m, l⟩ =
      fromDynamoDBValue (.NS ns))
  ∧ (∀ m l, fromDynamoDBValue ⟨none, none, none, none, none, some m, l⟩ =
      fromDynamoDBValue (.M m))
  ∧ (∀ l, fromDynamoDBValue ⟨none, none, none, none, none, none, some l⟩ =
      fromDynamoDBValue (.L l))
  ∧ fromDynamoDBValue ⟨some "x", some "5", none, none, none, none, none⟩ = .str "x" :=
  ⟨fun _ _ _ _ _ _ _ => rfl, fun _ _ _ _ _ _ => rfl, fun _ _ _ _ _ => rfl,
   fun _ _ _ _ => rfl, fun _ _ _ => rfl, fun _ _ => rfl, fun _ => rfl, rfl⟩

/-! ## Validators — `src/dynamodb/DynamoValidator.ts` -/

/-- Character-wise lower-casing, the model of `String.prototype.toLowerCase`
(ASCII-accurate; the denylist tokens and field names of interest are ASCII). -/
def lowerStr (s : String) : String := String.mk (s.data.map Char.toLower)

/-- `pat` occurs as a contiguous substring of `l` (the model of `String.prototype.includes`). -/
def hasInfix (pat : List Char) : List Char → Bool
  | [] => pat.isEmpty
  | c :: t => pat.isPrefixOf (c :: t) || hasInfix pat t

/-- `field.toLowerCase().includes(pattern.toLowerCase())`. -/
def containsCI (s pat : String) : Bool := hasInfix (lowerStr pat).data (lowerStr s).data

/-- `UNSAFE_PATTERNS` (DynamoValidator.ts lines 8–18). -/
def UNSAFE_PATTERNS : List String :=
  ["__proto__", "constructor", "prototype", "$", ";", "DROP", "DELETE", "INSERT", "UPDATE"]

/-- The test of `VALID_FIELD_REGEX = /^[a-zA-Z][a-zA-Z0-9_]*$/` on the characters of a part. -/
def validPartChars : List Char → Bool
  | [] => false
  | c :: cs => c.isAlpha && cs.all (fun d => d.isAlphanum || d = '_')

/-- `VALID_FIELD_REGEX.test(part)`. -/
def validFieldRegex (p : String) : Bool := validPartChars p.data

/-- Accumulator loop of `splitDot`: `cur` holds the characters of the current segment
in reverse. -/
def splitDotAux (cur : List Char) : List Char → List String
  | [] => [String.mk cur.reverse]
  | c :: t =>
    if c = '.' then String.mk cur.reverse :: splitDotAux [] t
    else splitDotAux (c :: cur) t

/-- The model of `field.split(".")`: split on every dot, keeping empty segments
(`"".split(".")` is `[""]`, `"a.".split(".")` is `["a", ""]`). -/
def splitDot (s : String) : List String := splitDotAux [] s.data

/-- The `parts.forEach` loop of `validateFieldName`: per-part length and regex checks,
first failure wins. -/
def checkParts : List String → Except String Unit
  | [] => .ok ()
  | p :: ps =>
    if p.length > 255 then .error "Field part length exceeds maximum of 255"
    else if ¬ validFieldRegex p then .error ("Invalid characters in field name: " ++ p)
    else checkParts ps

/-- `validateFieldName` (DynamoValidator.ts lines 43–67). -/
def validateFieldName (field : String) : Except String Unit :=
  if field = "" then .error "Field name cannot be empty"
  else if UNSAFE_PATTERNS.any (fun pattern => containsCI field pattern) then
    .error ("Field name contains unsafe pattern: " ++ field)
  else
    let parts := splitDot field
    if parts.length > 20 then .error "Field depth exceeds maximum of 20"
    else checkParts parts

/-- JSON string quoting (escapes quote and backslash; control-character escapes are
not modelled — no claim exercises them). -/
def quoteJsonString (s : String) : String :=
  "\"" ++ String.mk (s.data.flatMap fun c =>
    if c = '"' then ['\\', '"'] else if c = '\\' then ['\\', '\\'] else [c]) ++ "\""

mutual

/-- Model of `JSON.stringify` on the modelled values (`JSON.stringify(NaN)` is `"null"`). -/
def jsonStringify : JVal → String
  | .null => "null"
  | .nan => "null"
  | .str s => quoteJsonString s
  | .num n => intRepr n
  | .bool b => if b then "true" else "false"
  | .arr l => "[" ++ jsonStringifyList l ++ "]"
  | .obj m => "\x7b" ++ jsonStringifyObj m ++ "\x7d"

/-- Comma-separated serialization of array elements. -/
def jsonStringifyList : List JVal → String
  | [] => ""
  | [v] => jsonStringify v
  | v :: vs => jsonStringify v ++ "," ++ jsonStringifyList vs

/-- Comma-separated serialization of object entries. -/
def jsonStringifyObj : List (String × JVal) → String
  | [] => ""
  | [(k, v)] => quoteJsonString k ++ ":" ++ jsonStringify v
  | (k, v) :: kvs => quoteJsonString k ++ ":" ++ jsonStringify v ++ "," ++ jsonStringifyObj kvs

end

/-- The `dangerousPatterns` list of `validateValue` (DynamoValidator.ts lines 75–80). -/
def dangerousPatterns : List String :=
  ["$where", "$regex", "$ne", "$gt", "$lt", "$gte", "$lte",
   "$in", "$nin", "$or", "$and", "$not", "$exists", "$type",
   "$mod", "$text", "$elemMatch", "$size", "$all", "$expr",
   "__proto__", "constructor", "prototype"]

/-- The serialize-and-scan check of `validateValue`. -/
def hasDangerous (s : String) : Bool :=
  dangerousPatterns.any (fun pattern => containsCI s pattern)

mutual

/-- `validateValue` (DynamoValidator.ts lines 69–104): reject null/undefined, scan the
JSON serialization for NoSQL-operator tokens, bound string length, reject empty arrays
and recurse into arrays, check object keys against the denylist and recurse into values. -/
def validateValue : JVal → Except String Unit
  | .null => .error "Value cannot be null or undefined"
  | .str s =>
    if hasDangerous (jsonStringify (.str s)) then .error "Potential NoSQL injection detected"
    else if s.length > 400000 then .error "Value length exceeds maximum of 400000"
    else .ok ()
  | .num n =>
    if hasDangerous (jsonStringify (.num n)) then .error "Potential NoSQL injection detected"
    else .ok ()
  | .nan =>
    if hasDangerous (jsonStringify .nan) then .error "Potential NoSQL injection detected"
    else .ok ()
  | .bool b =>
    if hasDangerous (jsonStringify (.bool b)) then .error "Potential NoSQL injection detected"
    else .ok ()
  | .arr l =>
    if hasDangerous (jsonStringify (.arr l)) then .error "Potential NoSQL injection detected"
    else if l.isEmpty then .error "Empty arrays not supported"
    else validateValueList l
  | .obj m =>
    if hasDangerous (jsonStringify (.obj m)) then .error "Potential NoSQL injection detected"
    else if m.any (fun kv => dangerousPatterns.contains kv.1) then
      .error "Potential NoSQL injection detected"
    else validateValueEntries m

/-- `value.forEach(validateValue)` over an array. -/
def validateValueList : List JVal → Except String Unit
  | [] => .ok ()
  | v :: vs =>
    match validateValue v with
    | .error e => .error e
    | .ok _ => validateValueList vs

/-- `Object.values(value).forEach(validateValue)` over an object. -/
def validateValueEntries : List (String × JVal) → Except String Unit
  | [] => .ok ()
  | (_, v) :: kvs =>
    match validateValue v with
    | .error e => .error e
    | .ok _ => validateValueEntries kvs

end

theorem checkParts_ok :
    ∀ ps : List String, (∀ p ∈ ps, p.length ≤ 255 ∧ validFieldRegex p = true) →
      checkParts ps = .ok () := by
  intro ps h
  induction ps with
  | nil => rfl
  | cons p rest ih =>
    have hp := h p (List.mem_cons_self p rest)
    rw [checkParts, if_neg (by omega), if_neg (by simp [hp.2])]
    exact ih fun q hq => h q (List.mem_cons_of_mem p hq)

/-- C5 counterexample: `"dropTable"` is a dotted path of one segment, 9 ≤ 255
characters long, matching `^[A-Za-z][A-Za-z0-9_]*$` — yet `validateFieldName`
rejects it, because case-insensitively it contains the denylisted token `DROP`.
So unsafe-token rejection (first half of the claim) contradicts acceptance of every
regex-valid path (second half). -/
theorem claim_C5_counterexample :
    validateFieldName "dropTable" = .error "Field name contains unsafe pattern: dropTable"
  ∧ (splitDot "dropTable").length ≤ 20
  ∧ ∀ p ∈ splitDot "dropTable", p.length ≤ 255 ∧ validFieldRegex p = true :=
  ⟨rfl, by decide, by decide⟩

/-- C5 (amended): `validateFieldName` rejects every string that contains,
case-insensitively, a token of the denylist; and it accepts every dotted path of at
most 20 segments, each of at most 255 characters and matching
`^[A-Za-z][A-Za-z0-9_]*$`, *provided the path does not contain any denylisted token*. -/
theorem claim_C5_validateFieldName :
    (∀ field : String,
      (∃ pattern ∈ UNSAFE_PATTERNS, containsCI field pattern = true) →
      validateFieldName field = .error ("Field name contains unsafe pattern: " ++ field))
  ∧ (∀ field : String,
      (∀ pattern ∈ UNSAFE_PATTERNS, containsCI field pattern = false) →
      (splitDot field).length ≤ 20 →
      (∀ p ∈ splitDot field, p.length ≤ 255 ∧ validFieldRegex p = true) →
      validateFieldName field = .ok ()) := by
  constructor
  · rintro field ⟨pattern, hp, hc⟩
    have hne : field ≠ "" := by
      intro h
      subst h
      have hempty : ∀ q ∈ UNSAFE_PATTERNS, containsCI "" q = false := by decide
      rw [hempty pattern hp] at hc
      exact Bool.false_ne_true hc
    rw [validateFieldName, if_neg hne,
      if_pos (List.any_eq_true.mpr ⟨pattern, hp, hc⟩)]
  · intro field hnc hd hparts
    have hne : field ≠ "" := by
      intro h
      subst h
      have := (hparts "" (by decide)).2
      exact absurd this (by decide)
    have hany : UNSAFE_PATTERNS.any (fun pattern => containsCI field pattern) = false := by
      rw [List.any_eq_false]
      intro pattern hp
      rw [hnc pattern hp]
      exact Bool.false_ne_true
    rw [validateFieldName, if_neg hne, if_neg (by rw [hany]; exact Bool.false_ne_true),
      if_neg (by omega)]
    exact checkParts_ok _ hparts

theorem claim_C5_validateFieldName_witness :
    validateFieldName "a$b" = .error ("Field name contains unsafe pattern: " ++ "a$b")
  ∧ validateFieldName "user.address_1" = .ok () :=
  ⟨claim_C5_validateFieldName.1 "a$b" ⟨"$", by decide, by decide⟩,
   claim_C5_validateFieldName.2 "user.address_1" (by decide) (by decide) (by decide)⟩

/-! ## Pagination validation — `validatePagination` -/

/-- A value supplied in a pagination field: a number (modelled as a rational, so that
fractional inputs such as `1.5` are representable) or a string. -/
inductive PagVal where
  | num (q : ℚ)
  | str (s : String)

/-- Split a character list at the first `'.'`, returning the part before and, when a
dot is present, the part after. -/
def splitAtDot : List Char → List Char × Option (List Char)
  | [] => ([], none)
  | c :: t =>
    if c = '.' then ([], some t)
    else
      let r := splitAtDot t
      (c :: r.1, r.2)

/-- Parse an unsigned decimal literal `digits[.digits]` (at least one digit overall)
as a rational. -/
def parseDecimal (l : List Char) : Option ℚ :=
  match splitAtDot l with
  | (ip, none) => if isDigits ip then some ((digitsVal ip : ℚ)) else none
  | (ip, some fp) =>
    if ip.all Char.isDigit && fp.all Char.isDigit && !(ip.isEmpty && fp.isEmpty)
        && !fp.contains '.' then
      some ((digitsVal ip : ℚ) + (digitsVal fp : ℚ) / ((10 : ℚ) ^ fp.length))
    else none

/-- Model of the JS `Number(string)` coercion on the decimal fragment: the empty
string coerces to 0, an optionally negated decimal literal to its value, anything
else to NaN (`none`). -/
def parseJSNumber (s : String) : Option ℚ :=
  match s.data with
  | [] => some 0
  | '-' :: rest => (parseDecimal rest).map Neg.neg
  | l => parseDecimal l

/-- `Number(v)` over a pagination field value; `none` is NaN. -/
def toNumber : PagVal → Option ℚ
  | .num q => some q
  | .str s => parseJSNumber s

/-- `Number.isInteger(Number(v))` — false for NaN, true exactly for integral values. -/
def isIntegerNumber (v : PagVal) : Bool :=
  match toNumber v with
  | some q => q.den = 1
  | none => false

/-- The pagination query shape (`IPaginationQuery`): all fields optional. -/
structure IPaginationQuery where
  page : Option PagVal := none
  size : Option PagVal := none
  limit : Option PagVal := none
  offset : Option PagVal := none
  sortBy : Option String := none
  sortDirection : Option String := none

/-- `validatePagination` (DynamoValidator.ts lines 107–129): `page`, `size`, `offset`
default to 1, 10, 0 when absent; `limit` has no default and is only checked when
present; each value must satisfy `Number.isInteger(Number(v))`, first failure wins. -/
def validatePagination (pagination : IPaginationQuery) : Except String Unit :=
  let page := pagination.page.getD (.num 1)
  let size := pagination.size.getD (.num 10)
  let offset := pagination.offset.getD (.num 0)
  if !(isIntegerNumber page) then .error "Page must be an integer"
  else if !(isIntegerNumber size) then .error "Size must be an integer"
  else if (match pagination.limit with
           | some l => !(isIntegerNumber l)
           | none => false) then .error "Limit must be an integer"
  else if !(isIntegerNumber offset) then .error "Offset must be an integer"
  else .ok ()

/-! ## The expression builder — `DynamoDBExpressionBuilder` -/

/-- `IFilterQuery`: one filter predicate. -/
structure IFilterQuery where
  field : String
  operator : String
  value : JVal

/-- `DynamoExpression` (types/DynamoExpression.ts): the accumulator object.  The two
placeholder maps are modelled as association lists recording every assignment the
source performs, in order; since the builder never re-assigns a key (the subject of
claim C2), the lists coincide with the JS objects. -/
structure DynamoExpression where
  TableName : Option String := none
  KeyConditionExpression : Option String := none
  FilterExpression : Option String := none
  ExpressionAttributeNames : List (String × String) := []
  ExpressionAttributeValues : List (String × AttributeValue) := []
  ScanIndexForward : Option Bool := none

/-- The name placeholder `#key{index}_{idx}`. -/
def keyName (index idx : Nat) : String :=
  String.mk ('#' :: 'k' :: 'e' :: 'y' :: (natDigits index ++ '_' :: natDigits idx))

/-- The value placeholder `:val{index}`. -/
def valName (index : Nat) : String :=
  String.mk (':' :: 'v' :: 'a' :: 'l' :: natDigits index)

/-- The value placeholder `:val{index}_{i}`. -/
def valElemName (index i : Nat) : String :=
  String.mk (':' :: 'v' :: 'a' :: 'l' :: (natDigits index ++ '_' :: natDigits i))

/-- The `pathParts.forEach` loop of `buildSubExpression`: bind one name placeholder
`#key{index}_{idx}` per path segment, `idx` counting from 0. -/
def pathBindings (index : Nat) : List String → Nat → List (String × String)
  | [], _ => []
  | part :: parts, idx => (keyName index idx, part) :: pathBindings index parts (idx + 1)

/-- The placeholder list joined into the attribute path reference. -/
def pathPlaceholders (index : Nat) : List String → Nat → List String
  | [], _ => []
  | _ :: parts, idx => keyName index idx :: pathPlaceholders index parts (idx + 1)

/-- JS `Array.prototype.join(".")` / `join(" OR ")` etc. -/
def joinSep (sep : String) : List String → String
  | [] => ""
  | [s] => s
  | s :: rest => s ++ sep ++ joinSep sep rest

/-- The `operatorMap` of `DynamoDBExpressionBuilder`. -/
def operatorMap (op : String) : Option String :=
  if op = "<" then some "<"
  else if op = ">" then some ">"
  else if op = "<=" then some "<="
  else if op = ">=" then some ">="
  else if op = "=" then some "="
  else if op = "!=" then some "<>"
  else if op = "in" then some "IN"
  else if op = "not in" then some "NOT IN"
  else if op = "like" then some "contains"
  else if op = "not like" then some "NOT contains"
  else none

/-- The array coercion of the `in`/`not in` branch:
`if (!Array.isArray(value)) value = [value]`. -/
def coerceToArray : JVal → List JVal
  | .arr l => l
  | v => [v]

/-- The `value.map(...)` loop of the `in`/`not in` branch: bind `:val{index}_{i}` to
each encoded element and emit one equality condition per element. -/
def inConditions (path : String) (index : Nat) :
    List JVal → Nat → Except String (List (String × AttributeValue) × List String)
  | [], _ => .ok ([], [])
  | v :: vs, i =>
    match toDynamoDBValue v with
    | .error e => .error e
    | .ok a =>
      match inConditions path index vs (i + 1) with
      | .error e => .error e
      | .ok (bs, cs) =>
        .ok ((valElemName index i, a) :: bs,
             (path ++ " = " ++ valElemName index i) :: cs)

/-- `buildSubExpression` (DynamoDBExpressionBuilder.ts lines 175–218): bind the path
segments, then dispatch on the operator: `like`/`not like` emit a containment test,
`in`/`not in` coerce a non-array value to a one-element array and expand to an
OR-disjunction (negated for `not in`), anything else looks up `operatorMap` — binding
`:val{index}` before the lookup, as the source does — and emits a binary comparison,
or raises "Unsupported operator". Returns the updated expression and the fragment. -/
def buildSubExpression (expr : DynamoExpression) (field : String) (op : String)
    (value : JVal) (index : Nat) : Except String (DynamoExpression × String) :=
  let pathParts := splitDot field
  let expr := { expr with
    ExpressionAttributeNames :=
      expr.ExpressionAttributeNames ++ pathBindings index pathParts 0 }
  let path := joinSep "." (pathPlaceholders index pathParts 0)
  if op = "like" then
    match toDynamoDBValue value with
    | .error e => .error e
    | .ok a =>
      .ok ({ expr with
              ExpressionAttributeValues :=
                expr.ExpressionAttributeValues ++ [(valName index, a)] },
           "contains(" ++ path ++ ", " ++ valName index ++ ")")
  else if op = "not like" then
    match toDynamoDBValue value with
    | .error e => .error e
    | .ok a =>
      .ok ({ expr with
              ExpressionAttributeValues :=
                expr.ExpressionAttributeValues ++ [(valName index, a)] },
           "NOT contains(" ++ path ++ ", " ++ valName index ++ ")")
  else if op = "in" ∨ op = "not in" then
    match inConditions path index (coerceToArray value) 0 with
    | .error e => .error e
    | .ok (bs, conds) =>
      .ok ({ expr with
              ExpressionAttributeValues := expr.ExpressionAttributeValues ++ bs },
           if op = "in" then "(" ++ joinSep " OR " conds ++ ")"
           else "NOT (" ++ joinSep " OR " conds ++ ")")
  else
    match toDynamoDBValue value with
    | .error e => .error e
    | .ok a =>
      let expr := { expr with
        ExpressionAttributeValues :=
          expr.ExpressionAttributeValues ++ [(valName index, a)] }
      match operatorMap op with
      | none => .error ("Unsupported operator: " ++ op)
      | some dynOp => .ok (expr, path ++ " " ++ dynOp ++ " " ++ valName index)

/-- `addPartitionKeyExpression` (DynamoDBExpressionBuilder.ts lines 220–227). -/
def addPartitionKeyExpression (expr : DynamoExpression) (pkFilter : IFilterQuery) :
    Except String DynamoExpression :=
  match toDynamoDBValue pkFilter.value with
  | .error e => .error e
  | .ok a =>
    .ok { expr with
      KeyConditionExpression := some "#pk = :pkVal",
      ExpressionAttributeNames := expr.ExpressionAttributeNames ++ [("#pk", pkFilter.field)],
      ExpressionAttributeValues := expr.ExpressionAttributeValues ++ [(":pkVal", a)] }

/-- The `filters.map((filter, i) => buildSubExpression(...))` of
`addFilterExpressions`, threading the mutated expression and collecting the
sub-expression strings. -/
def buildSubExpressions (expr : DynamoExpression) :
    List IFilterQuery → Nat → Except String (DynamoExpression × List String)
  | [], _ => .ok (expr, [])
  | f :: fs, i =>
    match buildSubExpression expr f.field f.operator f.value i with
    | .error e => .error e
    | .ok (expr', s) =>
      match buildSubExpressions expr' fs (i + 1) with
      | .error e => .error e
      | .ok (expr'', ss) => .ok (expr'', s :: ss)

/-- `addFilterExpressions` (DynamoDBExpressionBuilder.ts lines 229–238). -/
def addFilterExpressions (expr : DynamoExpression) (filters : List IFilterQuery) :
    Except String DynamoExpression :=
  match buildSubExpressions expr filters 0 with
  | .error e => .error e
  | .ok (expr', subExpressions) =>
    .ok { expr' with FilterExpression := some (joinSep " AND " subExpressions) }

/-- Modelled from the spec: `extractPartitionKeyFilter` lives in
`BaseExpressionBuilder` of the external `@denis_bruns/database-core` package, whose
source is not part of this repository. Spec §4.3 step 3: "scan predicates in order
for the first one whose field equals the configured partition-key name and whose
operator is equality; that predicate (if any) becomes the key-condition source, all
others (including any additional equality-on-pk predicates) become residual filter
predicates." -/
def extractPartitionKeyFilter (pkName : String) :
    List IFilterQuery → Option IFilterQuery × List IFilterQuery
  | [] => (none, [])
  | f :: fs =>
    if f.field = pkName ∧ f.operator = "=" then (some f, fs)
    else
      let r := extractPartitionKeyFilter pkName fs
      (r.1, f :: r.2)

/-- The `filters.forEach` validation loop of `buildFilterExpression`: field then value
per filter, in input order, first error wins. -/
def validateFilters : List IFilterQuery → Except String Unit
  | [] => .ok ()
  | f :: fs =>
    match validateFieldName f.field with
    | .error e => .error e
    | .ok _ =>
      match validateValue f.value with
      | .error e => .error e
      | .ok _ => validateFilters fs

/-- `buildFilterExpression` (DynamoDBExpressionBuilder.ts lines 149–173): empty input
gives an empty expression; otherwise validate every predicate, extract the partition
key filter, emit the key condition for it when present, and the filter expression for
the remaining predicates when any. `pkName` is the constructor argument of the
builder. -/
def buildFilterExpression (pkName : String) (filters : List IFilterQuery) :
    Except String DynamoExpression :=
  if filters.isEmpty then .ok {}
  else
    match validateFilters filters with
    | .error e => .error e
    | .ok _ =>
      let expr : DynamoExpression :=
        { ExpressionAttributeNames := [], ExpressionAttributeValues := [] }
      let r := extractPartitionKeyFilter pkName filters
      match (match r.1 with
             | some pkFilter => addPartitionKeyExpression expr pkFilter
             | none => .ok expr) with
      | .error e => .error e
      | .ok expr' =>
        if r.2.isEmpty then .ok expr'
        else addFilterExpressions expr' r.2

/-! ## Distinctness of the generated placeholder names -/

theorem String.mk_injective {a b : List Char} (h : String.mk a = String.mk b) : a = b :=
  congrArg String.data h

theorem sep_split :
    ∀ (xs xs' ys ys' : List Char), '_' ∉ xs → '_' ∉ xs' →
      xs ++ '_' :: ys = xs' ++ '_' :: ys' → xs = xs' ∧ ys = ys' := by
  intro xs
  induction xs with
  | nil =>
    intro xs' ys ys' _ hx' h
    cases xs' with
    | nil => simpa using h
    | cons c t =>
      simp at h
      exact absurd (h.1 ▸ List.mem_cons_self c t) hx'
  | cons c t ih =>
    intro xs' ys ys' hx hx' h
    cases xs' with
    | nil =>
      simp at h
      exact absurd (h.1 ▸ List.mem_cons_self c t) hx
    | cons c' t' =>
      simp at h
      obtain ⟨hc, ht⟩ := h
      have := ih t' ys ys' (fun m => hx (List.mem_cons_of_mem c m))
        (fun m => hx' (List.mem_cons_of_mem c' m)) ht
      exact ⟨by rw [hc, this.1], this.2⟩

theorem keyName_inj {i j i' j' : Nat} (h : keyName i j = keyName i' j') :
    i = i' ∧ j = j' := by
  have h' := String.mk_injective h
  simp only [List.cons.injEq, true_and] at h'
  have := sep_split _ _ _ _ (natDigits_no_underscore i) (natDigits_no_underscore i') h'
  exact ⟨natDigits_inj this.1, natDigits_inj this.2⟩

theorem valName_inj {i i' : Nat} (h : valName i = valName i') : i = i' := by
  have h' := String.mk_injective h
  simp only [List.cons.injEq, true_and] at h'
  exact natDigits_inj h'

theorem valElemName_inj {i k i' k' : Nat} (h : valElemName i k = valElemName i' k') :
    i = i' ∧ k = k' := by
  have h' := String.mk_injective h
  simp only [List.cons.injEq, true_and] at h'
  have := sep_split _ _ _ _ (natDigits_no_underscore i) (natDigits_no_underscore i') h'
  exact ⟨natDigits_inj this.1, natDigits_inj this.2⟩

theorem valName_ne_valElemName (i i' k : Nat) : valName i ≠ valElemName i' k := by
  intro h
  have h' := String.mk_injective h
  simp only [List.cons.injEq, true_and] at h'
  have : '_' ∈ natDigits i := by
    rw [h']
    exact List.mem_append_right _ (List.mem_cons_self _ _)
  exact natDigits_no_underscore i this

theorem pk_ne_keyName (i j : Nat) : "#pk" ≠ keyName i j := by
  intro h
  have h' : (['#', 'p', 'k'] : List Char) =
      '#' :: 'k' :: 'e' :: 'y' :: (natDigits i ++ '_' :: natDigits j) :=
    String.mk_injective h
  simp at h'

theorem pkVal_ne_valName (i : Nat) : ":pkVal" ≠ valName i := by
  intro h
  have h' : ([':', 'p', 'k', 'V', 'a', 'l'] : List Char) =
      ':' :: 'v' :: 'a' :: 'l' :: natDigits i :=
    String.mk_injective h
  simp at h'

theorem pkVal_ne_valElemName (i k : Nat) : ":pkVal" ≠ valElemName i k := by
  intro h
  have h' : ([':', 'p', 'k', 'V', 'a', 'l'] : List Char) =
      ':' :: 'v' :: 'a' :: 'l' :: (natDigits i ++ '_' :: natDigits k) :=
    String.mk_injective h
  simp at h'

theorem pathBindings_shape (index : Nat) :
    ∀ (parts : List String) (idx : Nat),
      (∀ x ∈ pathBindings index parts idx, ∃ j, idx ≤ j ∧ x.1 = keyName index j)
      ∧ ((pathBindings index parts idx).map Prod.fst).Nodup := by
  intro parts
  induction parts with
  | nil => intro idx; exact ⟨by simp [pathBindings], by simp [pathBindings]⟩
  | cons p ps ih =>
    intro idx
    constructor
    · intro x hx
      rw [pathBindings] at hx
      rcases List.mem_cons.mp hx with h | h
      · exact ⟨idx, le_refl _, by rw [h]⟩
      · obtain ⟨j, hj, hx1⟩ := (ih (idx + 1)).1 x h
        exact ⟨j, by omega, hx1⟩
    · rw [pathBindings]
      simp only [List.map_cons]
      rw [List.nodup_cons]
      refine ⟨?_, (ih (idx + 1)).2⟩
      intro hmem
      obtain ⟨x, hx, hfst⟩ := List.mem_map.mp hmem
      obtain ⟨j, hj, hx1⟩ := (ih (idx + 1)).1 x hx
      rw [hx1] at hfst
      have := (keyName_inj hfst).2
      omega

theorem inConditions_shape (path : String) (index : Nat) :
    ∀ (elems : List JVal) (i : Nat) (bs : List (String × AttributeValue)) (cs : List String),
      inConditions path index elems i = .ok (bs, cs) →
      (∀ x ∈ bs, ∃ k, i ≤ k ∧ x.1 = valElemName index k) ∧ (bs.map Prod.fst).Nodup := by
  intro elems
  induction elems with
  | nil =>
    intro i bs cs h
    rw [inConditions] at h
    simp only [Except.ok.injEq, Prod.mk.injEq] at h
    obtain ⟨hbs, -⟩ := h
    subst hbs
    exact ⟨by simp, by simp⟩
  | cons v vs ih =>
    intro i bs cs h
    rw [inConditions] at h
    cases hv : toDynamoDBValue v with
    | error e => rw [hv] at h; exact absurd h (by simp)
    | ok a =>
      rw [hv] at h
      cases hrec : inConditions path index vs (i + 1) with
      | error e => rw [hrec] at h; exact absurd h (by simp)
      | ok p =>
        obtain ⟨bs', cs'⟩ := p
        rw [hrec] at h
        simp only [Except.ok.injEq, Prod.mk.injEq] at h
        obtain ⟨hbs, -⟩ := h
        subst hbs
        obtain ⟨hshape, hnodup⟩ := ih (i + 1) bs' cs' hrec
        constructor
        · intro x hx
          rcases List.mem_cons.mp hx with h | h
          · exact ⟨i, le_refl _, by rw [h]⟩
          · obtain ⟨k, hk, hx1⟩ := hshape x h
            exact ⟨k, by omega, hx1⟩
        · simp only [List.map_cons]
          rw [List.nodup_cons]
          refine ⟨?_, hnodup⟩
          intro hmem
          obtain ⟨x, hx, hfst⟩ := List.mem_map.mp hmem
          obtain ⟨k, hk, hx1⟩ := hshape x hx
          rw [hx1] at hfst
          have := (valElemName_inj hfst).2
          omega

/-- Keys added by one `buildSubExpression` call at position `i`: name keys are all
`#key{i}_{j}`, value keys are `:val{i}` or `:val{i}_{k}`, each group without
duplicates; earlier bindings and the key condition are untouched. -/
theorem buildSubExpression_shape
    {expr : DynamoExpression} {f op : String} {v : JVal} {i : Nat}
    {e : DynamoExpression} {s : String}
    (h : buildSubExpression expr f op v i = .ok (e, s)) :
    ∃ N V,
      e.ExpressionAttributeNames = expr.ExpressionAttributeNames ++ N
      ∧ e.ExpressionAttributeValues = expr.ExpressionAttributeValues ++ V
      ∧ (∀ x ∈ N, ∃ j, x.1 = keyName i j) ∧ (N.map Prod.fst).Nodup
      ∧ (∀ x ∈ V, x.1 = valName i ∨ ∃ k, x.1 = valElemName i k) ∧ (V.map Prod.fst).Nodup
      ∧ e.KeyConditionExpression = expr.KeyConditionExpression := by
  rw [buildSubExpression] at h
  have hN := pathBindings_shape i (splitDot f) 0
  by_cases hlike : op = "like"
  · rw [if_pos hlike] at h
    cases hv : toDynamoDBValue v with
    | error er => rw [hv] at h; exact absurd h (by simp)
    | ok a =>
      rw [hv] at h
      simp only [Except.ok.injEq, Prod.mk.injEq] at h
      obtain ⟨he, -⟩ := h
      subst he
      refine ⟨pathBindings i (splitDot f) 0, [(valName i, a)], rfl, rfl,
        fun x hx => (hN.1 x hx).imp (fun j hj => hj.2), hN.2, ?_, by simp, rfl⟩
      intro x hx
      simp at hx
      exact Or.inl (by rw [hx])
  · rw [if_neg hlike] at h
    by_cases hnlike : op = "not like"
    · rw [if_pos hnlike] at h
      cases hv : toDynamoDBValue v with
      | error er => rw [hv] at h; exact absurd h (by simp)
      | ok a =>
        rw [hv] at h
        simp only [Except.ok.injEq, Prod.mk.injEq] at h
        obtain ⟨he, -⟩ := h
        subst he
        refine ⟨pathBindings i (splitDot f) 0, [(valName i, a)], rfl, rfl,
          fun x hx => (hN.1 x hx).imp (fun j hj => hj.2), hN.2, ?_, by simp, rfl⟩
        intro x hx
        simp at hx
        exact Or.inl (by rw [hx])
    · rw [if_neg hnlike] at h
      by_cases hin : op = "in" ∨ op = "not in"
      · rw [if_pos hin] at h
        cases hc : inConditions (joinSep "." (pathPlaceholders i (splitDot f) 0)) i
            (coerceToArray v) 0 with
        | error er => rw [hc] at h; exact absurd h (by simp)
        | ok p =>
          obtain ⟨bs, conds⟩ := p
          rw [hc] at h
          simp only [Except.ok.injEq, Prod.mk.injEq] at h
          obtain ⟨he, -⟩ := h
          subst he
          obtain ⟨hshape, hnodup⟩ := inConditions_shape _ i _ 0 bs conds hc
          exact ⟨pathBindings i (splitDot f) 0, bs, rfl, rfl,
            fun x hx => (hN.1 x hx).imp (fun j hj => hj.2), hN.2,
            fun x hx => Or.inr ((hshape x hx).imp (fun k hk => hk.2)), hnodup, rfl⟩
      · rw [if_neg hin] at h
        cases hv : toDynamoDBValue v with
        | error er => rw [hv] at h; exact absurd h (by simp)
        | ok a =>
          rw [hv] at h
          cases hop : operatorMap op with
          | none => rw [hop] at h; exact absurd h (by simp)
          | some dynOp =>
            rw [hop] at h
            simp only [Except.ok.injEq, Prod.mk.injEq] at h
            obtain ⟨he, -⟩ := h
            subst he
            refine ⟨pathBindings i (splitDot f) 0, [(valName i, a)], rfl, rfl,
              fun x hx => (hN.1 x hx).imp (fun j hj => hj.2), hN.2, ?_, by simp, rfl⟩
            intro x hx
            simp at hx
            exact Or.inl (by rw [hx])

/-- Keys added across the `filters.map` fold starting at position `i`: all name keys
are `#key{i'}_{j}` and all value keys `:val{i'}`/`:val{i'}_{k}` with `i' ≥ i`, and
each group stays duplicate-free because positions differ across calls. -/
theorem buildSubExpressions_shape :
    ∀ (fs : List IFilterQuery) (i : Nat) (expr e : DynamoExpression) (ss : List String),
      buildSubExpressions expr fs i = .ok (e, ss) →
      ∃ N V,
        e.ExpressionAttributeNames = expr.ExpressionAttributeNames ++ N
        ∧ e.ExpressionAttributeValues = expr.ExpressionAttributeValues ++ V
        ∧ (∀ x ∈ N, ∃ i' j, i ≤ i' ∧ x.1 = keyName i' j) ∧ (N.map Prod.fst).Nodup
        ∧ (∀ x ∈ V, ∃ i', i ≤ i' ∧ (x.1 = valName i' ∨ ∃ k, x.1 = valElemName i' k))
        ∧ (V.map Prod.fst).Nodup
        ∧ e.KeyConditionExpression = expr.KeyConditionExpression := by
  intro fs
  induction fs with
  | nil =>
    intro i expr e ss h
    rw [buildSubExpressions] at h
    simp only [Except.ok.injEq, Prod.mk.injEq] at h
    obtain ⟨he, -⟩ := h
    subst he
    exact ⟨[], [], by simp, by simp, by simp, by simp, by simp, by simp, rfl⟩
  | cons f fs ih =>
    intro i expr e ss h
    rw [buildSubExpressions] at h
    split at h
    · exact absurd h (by simp)
    next expr' s hsub =>
      split at h
      · exact absurd h (by simp)
      next expr'' ss' hrec =>
        simp only [Except.ok.injEq, Prod.mk.injEq] at h
        obtain ⟨he, -⟩ := h
        subst he
        obtain ⟨N₀, V₀, hN₀, hV₀, hN₀s, hN₀d, hV₀s, hV₀d, hK₀⟩ :=
          buildSubExpression_shape hsub
        obtain ⟨N₁, V₁, hN₁, hV₁, hN₁s, hN₁d, hV₁s, hV₁d, hK₁⟩ :=
          ih (i + 1) expr' expr'' ss' hrec
        refine ⟨N₀ ++ N₁, V₀ ++ V₁,
          by rw [hN₁, hN₀, List.append_assoc],
          by rw [hV₁, hV₀, List.append_assoc], ?_, ?_, ?_, ?_, by rw [hK₁, hK₀]⟩
        · intro x hx
          rcases List.mem_append.mp hx with hx | hx
          · obtain ⟨j, hj⟩ := hN₀s x hx
            exact ⟨i, j, le_refl _, hj⟩
          · obtain ⟨i', j, hi', hj⟩ := hN₁s x hx
            exact ⟨i', j, by omega, hj⟩
        · rw [List.map_append]
          apply List.Nodup.append hN₀d hN₁d
          intro a ha₀ ha₁
          obtain ⟨x, hx, hfx⟩ := List.mem_map.mp ha₀
          obtain ⟨y, hy, hfy⟩ := List.mem_map.mp ha₁
          obtain ⟨j, hj⟩ := hN₀s x hx
          obtain ⟨i', j', hi', hj'⟩ := hN₁s y hy
          rw [hj] at hfx
          rw [hj'] at hfy
          rw [← hfx] at hfy
          have := (keyName_inj hfy).1
          omega
        · intro x hx
          rcases List.mem_append.mp hx with hx | hx
          · exact ⟨i, le_refl _, hV₀s x hx⟩
          · obtain ⟨i', hi', hor⟩ := hV₁s x hx
            exact ⟨i', by omega, hor⟩
        · rw [List.map_append]
          apply List.Nodup.append hV₀d hV₁d
          intro a ha₀ ha₁
          obtain ⟨x, hx, hfx⟩ := List.mem_map.mp ha₀
          obtain ⟨y, hy, hfy⟩ := List.mem_map.mp ha₁
          obtain ⟨i', hi', hor'⟩ := hV₁s y hy
          rw [← hfx] at hfy
          rcases hV₀s x hx with hval | ⟨k, hval⟩ <;> rcases hor' with hval' | ⟨k', hval'⟩
          · rw [hval] at hfy; rw [hval'] at hfy
            have := valName_inj hfy
            omega
          · rw [hval] at hfy; rw [hval'] at hfy
            exact valName_ne_valElemName _ _ _ hfy.symm
          · rw [hval] at hfy; rw [hval'] at hfy
            exact valName_ne_valElemName _ _ _ hfy
          · rw [hval] at hfy; rw [hval'] at hfy
            have := (valElemName_inj hfy).1
            omega

/-- C2: for every non-empty filter list accepted by `buildFilterExpression` (any
operators, any dotted-path depth, any element counts), the generated placeholder keys
never collide: both the name map keys (`#pk`, `#key{i}_{j}`) and the value map keys
(`:pkVal`, `:val{i}`, `:val{i}_{k}`) are pairwise distinct, so no binding overwrites
another. -/
theorem claim_C2_no_placeholder_collision
    (pkName : String) (filters : List IFilterQuery) (e : DynamoExpression)
    (hne : filters ≠ [])
    (h : buildFilterExpression pkName filters = .ok e) :
    (e.ExpressionAttributeNames.map Prod.fst).Nodup
    ∧ (e.ExpressionAttributeValues.map Prod.fst).Nodup := by
  rw [buildFilterExpression] at h
  rw [if_neg (by simp [hne])] at h
  split at h
  · exact absurd h (by simp)
  next hval =>
    dsimp only at h
    split at h
    · exact absurd h (by simp)
    next expr' hpk =>
      have hchar :
          (∃ fld a, expr'.ExpressionAttributeNames = [("#pk", fld)]
            ∧ expr'.ExpressionAttributeValues = [(":pkVal", a)])
          ∨ (expr'.ExpressionAttributeNames = []
            ∧ expr'.ExpressionAttributeValues = []) := by
        split at hpk
        · next pkF heq =>
          rw [addPartitionKeyExpression] at hpk
          split at hpk
          · exact absurd hpk (by simp)
          next a hv =>
            simp only [Except.ok.injEq] at hpk
            subst hpk
            exact Or.inl ⟨pkF.field, a, rfl, rfl⟩
        · next heq =>
          simp only [Except.ok.injEq] at hpk
          subst hpk
          exact Or.inr ⟨rfl, rfl⟩
      split at h
      · simp only [Except.ok.injEq] at h
        subst h
        rcases hchar with ⟨fld, a, hn, hv⟩ | ⟨hn, hv⟩ <;> rw [hn, hv] <;> simp
      · rw [addFilterExpressions] at h
        split at h
        · exact absurd h (by simp)
        next e₀ ss hfold =>
          simp only [Except.ok.injEq] at h
          subst h
          obtain ⟨N, V, hN, hV, hNs, hNd, hVs, hVd, -⟩ :=
            buildSubExpressions_shape _ 0 expr' e₀ ss hfold
          simp only
          rw [hN, hV]
          rcases hchar with ⟨fld, a, hn, hv⟩ | ⟨hn, hv⟩
          · rw [hn, hv]
            constructor
            · simp only [List.map_append, List.map_cons, List.map_nil]
              show ("#pk" :: N.map Prod.fst).Nodup
              rw [List.nodup_cons]
              refine ⟨?_, hNd⟩
              intro hmem
              obtain ⟨x, hx, hfx⟩ := List.mem_map.mp hmem
              obtain ⟨i', j, -, hj⟩ := hNs x hx
              rw [hj] at hfx
              exact pk_ne_keyName i' j hfx.symm
            · simp only [List.map_append, List.map_cons, List.map_nil]
              show (":pkVal" :: V.map Prod.fst).Nodup
              rw [List.nodup_cons]
              refine ⟨?_, hVd⟩
              intro hmem
              obtain ⟨x, hx, hfx⟩ := List.mem_map.mp hmem
              obtain ⟨i', -, hor⟩ := hVs x hx
              rcases hor with hval' | ⟨k, hval'⟩
              · rw [hval'] at hfx
                exact pkVal_ne_valName i' hfx.symm
              · rw [hval'] at hfx
                exact pkVal_ne_valElemName i' k hfx.symm
          · rw [hn, hv]
            simp only [List.nil_append]
            exact ⟨hNd, hVd⟩

theorem claim_C2_no_placeholder_collision_witness :
    [(⟨"id", "=", .str "1"⟩ : IFilterQuery), ⟨"a.b", "in", .arr [.str "x", .str "y"]⟩,
      ⟨"name", "like", .str "Jo"⟩] ≠ []
  ∧ ∃ e, buildFilterExpression "id"
      [⟨"id", "=", .str "1"⟩, ⟨"a.b", "in", .arr [.str "x", .str "y"]⟩,
        ⟨"name", "like", .str "Jo"⟩] = .ok e
      ∧ (e.ExpressionAttributeNames.map Prod.fst).Nodup
      ∧ (e.ExpressionAttributeValues.map Prod.fst).Nodup := by
  refine ⟨by simp, ?_⟩
  have heval : buildFilterExpression "id"
      [⟨"id", "=", .str "1"⟩, ⟨"a.b", "in", .arr [.str "x", .str "y"]⟩,
        ⟨"name", "like", .str "Jo"⟩] =
      .ok { KeyConditionExpression := some "#pk = :pkVal",
            FilterExpression :=
              some "(#key0_0.#key0_1 = :val0_0 OR #key0_0.#key0_1 = :val0_1) AND contains(#key1_0, :val1)",
            ExpressionAttributeNames :=
              [("#pk", "id"), ("#key0_0", "a"), ("#key0_1", "b"), ("#key1_0", "name")],
            ExpressionAttributeValues :=
              [(":pkVal", .S "1"), (":val0_0", .S "x"), (":val0_1", .S "y"),
                (":val1", .S "Jo")] } := by
    simp [buildFilterExpression, validateFilters, validateFieldName, validateValue,
      validateValueList, validateValueEntries,
      hasDangerous, dangerousPatterns, containsCI, lowerStr, hasInfix, jsonStringify,
      jsonStringifyList, quoteJsonString, UNSAFE_PATTERNS, splitDot, splitDotAux,
      checkParts, validFieldRegex, validPartChars, extractPartitionKeyFilter,
      addPartitionKeyExpression, toDynamoDBValue, jsTypeof, getStr,
      addFilterExpressions, buildSubExpressions, buildSubExpression, coerceToArray,
      inConditions, pathBindings, pathPlaceholders, joinSep, operatorMap, keyName,
      valName, valElemName, natDigits, String.length]
  exact ⟨_, heval,
    claim_C2_no_placeholder_collision "id" _ _ (by simp) heval⟩

/-- C1: for the filter list `[(field: "id", operator: "=", value: "123")]` with
partition key `"id"`, `buildFilterExpression` returns an expression whose
`KeyConditionExpression` is `"#pk = :pkVal"`, whose name map binds `#pk` to `"id"`,
whose value map binds `:pkVal` to the string-tagged `"123"`, and which has no
`FilterExpression`. -/
theorem claim_C1_partition_key_scenario :
    buildFilterExpression "id" [⟨"id", "=", .str "123"⟩] =
      .ok { KeyConditionExpression := some "#pk = :pkVal",
            FilterExpression := none,
            ExpressionAttributeNames := [("#pk", "id")],
            ExpressionAttributeValues := [(":pkVal", .S "123")] } := by
  simp [buildFilterExpression, validateFilters, validateFieldName, validateValue,
    hasDangerous, dangerousPatterns, containsCI, lowerStr, hasInfix, jsonStringify,
    quoteJsonString, UNSAFE_PATTERNS, splitDot, splitDotAux, checkParts, validFieldRegex,
    validPartChars, extractPartitionKeyFilter, addPartitionKeyExpression, toDynamoDBValue,
    String.length]

/-- C4: the `in`/`not in` operators coerce a non-array value to a one-element array
and expand to an OR-disjunction of one equality per element, negated with `NOT` for
`not in`; on the single predicate `(field: "tags", operator: "in", value: ["a","b"])`
with partition key `"id"`, the filter expression is exactly
`"(#key0_0 = :val0_0 OR #key0_0 = :val0_1)"` with `#key0_0` bound to `"tags"` and
`:val0_0`, `:val0_1` bound to the encoded elements. -/
theorem claim_C4_in_operator :
    buildFilterExpression "id" [⟨"tags", "in", .arr [.str "a", .str "b"]⟩] =
      .ok { KeyConditionExpression := none,
            FilterExpression := some "(#key0_0 = :val0_0 OR #key0_0 = :val0_1)",
            ExpressionAttributeNames := [("#key0_0", "tags")],
            ExpressionAttributeValues := [(":val0_0", .S "a"), (":val0_1", .S "b")] }
  ∧ (∀ (expr : DynamoExpression) (f : String) (v : JVal) (i : Nat),
      (∀ l, v ≠ .arr l) →
      buildSubExpression expr f "in" v i = buildSubExpression expr f "in" (.arr [v]) i)
  ∧ (∀ (expr : DynamoExpression) (f : String) (v : JVal) (i : Nat)
        (e : DynamoExpression) (s : String),
      buildSubExpression expr f "in" v i = .ok (e, s) →
      buildSubExpression expr f "not in" v i = .ok (e, "NOT " ++ s)) := by
  refine ⟨?_, ?_, ?_⟩
  · simp [buildFilterExpression, validateFilters, validateFieldName, validateValue,
      validateValueList, hasDangerous, dangerousPatterns, containsCI, lowerStr, hasInfix,
      jsonStringify, jsonStringifyList, quoteJsonString, UNSAFE_PATTERNS, splitDot,
      splitDotAux, checkParts, validFieldRegex, validPartChars, extractPartitionKeyFilter,
      addFilterExpressions, buildSubExpressions, buildSubExpression, coerceToArray,
      inConditions, pathBindings, pathPlaceholders, joinSep, operatorMap, keyName,
      valName, valElemName, natDigits, toDynamoDBValue, jsTypeof, getStr, String.length]
  · intro expr f v i hv
    have : coerceToArray v = [v] := by
      cases v <;> first | rfl | exact absurd rfl (hv _)
    rw [buildSubExpression, buildSubExpression]
    rw [show coerceToArray (.arr [v]) = [v] from rfl, this]
    simp only [if_neg (show ¬(("in" : String) = "like") from by decide),
      if_neg (show ¬(("in" : String) = "not like") from by decide),
      if_pos (show (("in" : String) = "in" ∨ ("in" : String) = "not in") from by simp)]
    simp
  · intro expr f v i e s h
    rw [buildSubExpression] at h
    rw [if_neg (show ¬(("in" : String) = "like") from by decide),
        if_neg (show ¬(("in" : String) = "not like") from by decide),
        if_pos (show (("in" : String) = "in" ∨ ("in" : String) = "not in") from by simp)] at h
    rw [buildSubExpression]
    rw [if_neg (show ¬(("not in" : String) = "like") from by decide),
        if_neg (show ¬(("not in" : String) = "not like") from by decide),
        if_pos (show (("not in" : String) = "in" ∨ ("not in" : String) = "not in") from by
          simp)]
    generalize inConditions (joinSep "." (pathPlaceholders i (splitDot f) 0)) i
        (coerceToArray v) 0 = r at h ⊢
    cases r with
    | error er => exact absurd h (by simp)
    | ok p =>
      obtain ⟨bs, conds⟩ := p
      simp only [if_pos (show ("in" : String) = "in" from rfl), Except.ok.injEq,
        Prod.mk.injEq] at h
      obtain ⟨he, hs⟩ := h
      simp only [if_neg (show ¬(("not in" : String) = "in") from by decide),
        Except.ok.injEq, Prod.mk.injEq]
      refine ⟨he, ?_⟩
      rw [← hs]
      rw [show ("NOT (" : String) = "NOT " ++ "(" from rfl]
      rw [String.append_assoc, String.append_assoc]
      simp [String.append_assoc]

theorem claim_C4_in_operator_witness :
    buildSubExpression {} "x" "in" (.str "a") 0 =
      buildSubExpression {} "x" "in" (.arr [.str "a"]) 0
  ∧ buildSubExpression {} "x" "not in" (.arr [.str "a"]) 0 =
      .ok ({ KeyConditionExpression := none, FilterExpression := none,
             ExpressionAttributeNames := [("#key0_0", "x")],
             ExpressionAttributeValues := [(":val0_0", .S "a")] },
           "NOT " ++ "(#key0_0 = :val0_0)") :=
  ⟨claim_C4_in_operator.2.1 {} "x" (.str "a") 0 (by simp),
   claim_C4_in_operator.2.2 {} "x" (.arr [.str "a"]) 0
     { KeyConditionExpression := none, FilterExpression := none,
       ExpressionAttributeNames := [("#key0_0", "x")],
       ExpressionAttributeValues := [(":val0_0", .S "a")] }
     "(#key0_0 = :val0_0)"
     (by simp [buildSubExpression, coerceToArray, inConditions, pathBindings,
       pathPlaceholders, joinSep, keyName, valName, valElemName, natDigits,
       toDynamoDBValue, splitDot, splitDotAux])⟩

/-! ## The service — `DynamoDBService` (prepareQueryParameters / processResults) -/

/-- A typed item as returned by the executor: a record of attribute values. -/
abbrev TypedItem : Type := List (String × AttributeValue)

/-- Entry-wise decoding of a typed record with an arbitrary decoder; with
`fromDynamoDBValue` this is exactly what `mapDynamoDBItemToType` does on typed
records — see `decodeItemWith_fromDynamoDBValue`. -/
def decodeItemWith (dec : AttributeValue → JVal) (es : TypedItem) : List (String × JVal) :=
  es.map fun kv => (kv.1, dec kv.2)

theorem fromDynamoDBObj_eq_map (es : List (String × AttributeValue)) :
    fromDynamoDBObj es = es.map fun kv => (kv.1, fromDynamoDBValue kv.2) := by
  induction es with
  | nil => rfl
  | cons kv rest ih =>
    obtain ⟨k, v⟩ := kv
    rw [fromDynamoDBObj, ih, List.map_cons]

/-- `decodeItemWith fromDynamoDBValue` coincides with `mapDynamoDBItemToType` on a
typed record, justifying the decoder-parametrized model of `processResults`. -/
theorem decodeItemWith_fromDynamoDBValue (es : TypedItem) :
    decodeItemWith fromDynamoDBValue es = mapDynamoDBItemToType (wrapEntries es) := by
  rw [mapDynamoDBItemToType_wrapEntries, fromDynamoDBObj_eq_map]
  rfl

/-- `true` exactly on the null value (JS falsiness of the decoded sort key is not
needed: attribute objects are always truthy, so the comparator only distinguishes
present/absent — see `sortKeyValWith`). -/
def isNullJV : JVal → Bool
  | .null => true
  | _ => false

mutual

/-- Model of the JS `String(value)` coercion used by the comparator's fallback branch
(`String(null) = "null"`, arrays join their elements with commas, plain objects
coerce to `"[object Object]"`). -/
def jsToString : JVal → String
  | .null => "null"
  | .str s => s
  | .num n => intRepr n
  | .nan => "NaN"
  | .bool b => if b then "true" else "false"
  | .arr l => joinComma l
  | .obj _ => "[object Object]"

/-- `Array.prototype.join(",")` — null/undefined elements join as empty strings. -/
def joinComma : List JVal → String
  | [] => ""
  | [v] => if isNullJV v then "" else jsToString v
  | v :: vs => (if isNullJV v then "" else jsToString v) ++ "," ++ joinComma vs

end

/-- Lexicographic code-point comparison of character lists, returning -1/0/1; together
with `localeCompare` this is the model of `String.prototype.localeCompare` (the real
collation table is locale/environment-dependent; the claims are insensitive to which
total comparison is used). -/
def chCmp : List Char → List Char → Int
  | [], [] => 0
  | [], _ :: _ => -1
  | _ :: _, [] => 1
  | a :: as, b :: bs => if a < b then -1 else if b < a then 1 else chCmp as bs

/-- The model of `a.localeCompare(b)`. -/
def localeCompare (s t : String) : Int := chCmp s.data t.data

/-- The numeric payload of a number-typed value (`none` for NaN). -/
def numOf : JVal → Option Int
  | .num n => some n
  | _ => none

/-- The comparator body of `processResults` over two already-extracted keys:
both strings — locale comparison; both numbers — subtraction (NaN results are
treated as 0, as ECMAScript SortCompare does); otherwise string-coerce and compare;
direction reversed when not `scanForward`. -/
def cmpVal (scanForward : Bool) (aVal bVal : JVal) : Int :=
  match aVal, bVal with
  | .str s, .str t => if scanForward then localeCompare s t else localeCompare t s
  | a, b =>
    if jsTypeof a = "number" ∧ jsTypeof b = "number" then
      match numOf a, numOf b with
      | some x, some y => if scanForward then x - y else y - x
      | _, _ => 0
    else
      if scanForward then localeCompare (jsToString a) (jsToString b)
      else localeCompare (jsToString b) (jsToString a)

/-- The per-item ordering key: `a[sortKey] ? fromDynamoDBValue(a[sortKey]) : ""`
(attribute objects are always truthy; an absent field gives the empty string). -/
def sortKeyValWith (dec : AttributeValue → JVal) (sortKey : String) (item : TypedItem) :
    JVal :=
  match (item : List (String × AttributeValue)).lookup sortKey with
  | some a => dec a
  | none => .str ""

/-- The full comparator of the in-memory sort of `processResults`. -/
def itemCmp (dec : AttributeValue → JVal) (scanForward : Bool) (sortKey : String)
    (a b : TypedItem) : Int :=
  cmpVal scanForward (sortKeyValWith dec sortKey a) (sortKeyValWith dec sortKey b)

/-- The comparator as the "precedes-or-ties" relation handed to the sort. -/
def itemLe (dec : AttributeValue → JVal) (pagination : IPaginationQuery)
    (sortKey : String) (a b : TypedItem) : Bool :=
  itemCmp dec (pagination.sortDirection != some "desc") sortKey a b ≤ 0

/-- The `results` local of `processResults`: `[...items].sort(comparator)` when
`sortBy` is set (modelled by the stable `List.mergeSort`), the raw items otherwise. -/
def sortedResultsWith (dec : AttributeValue → JVal) (items : List TypedItem)
    (pagination : IPaginationQuery) : List TypedItem :=
  match pagination.sortBy with
  | some sortKey => List.mergeSort items (itemLe dec pagination sortKey)
  | none => items

/-- `processResults` (DynamoDBService.ts lines 110–148), parametrized by the value
decoder: return `[]` at once when `limit` is 0 or `offset ≥ items.length`; otherwise
sort in memory when `sortBy` is set, slice `[offset, offset+limit)`, and decode each
surviving item. (The source's `items.slice(0, 5).forEach` debug loop only feeds
logging and has no observable effect in the model.) -/
def processResultsWith (dec : AttributeValue → JVal) (items : List TypedItem)
    (limit offset : Nat) (pagination : IPaginationQuery) : List (List (String × JVal)) :=
  if limit = 0 then []
  else if items.length ≤ offset then []
  else
    let results := sortedResultsWith dec items pagination
    let sliced := (results.drop offset).take limit
    sliced.map (decodeItemWith dec)

/-- `processResults` proper, with the repository's decoder. -/
def processResults (items : List TypedItem) (limit offset : Nat)
    (pagination : IPaginationQuery) : List (List (String × JVal)) :=
  processResultsWith fromDynamoDBValue items limit offset pagination

/-- `buildQueryParams` (DynamoDBService.ts lines 160–197): start from the table name;
when a key condition is present copy it and, if `sortBy` is set, validate it, bind
`#sortKey`, and set `ScanIndexForward`; then pass through the filter fragment and
merge the placeholder maps. The truthiness tests on the two maps are modelled by
non-emptiness: `buildFilterExpression` defines them exactly when it binds at least
one placeholder. -/
def buildQueryParams (tableName : String) (expr : DynamoExpression)
    (pagination : IPaginationQuery) : Except String DynamoExpression :=
  let base : DynamoExpression := { TableName := some tableName }
  let step1 : Except String DynamoExpression :=
    match expr.KeyConditionExpression with
    | none => .ok base
    | some kce =>
      let p := { base with KeyConditionExpression := some kce }
      match pagination.sortBy with
      | none => .ok p
      | some sb =>
        match validateFieldName sb with
        | .error e => .error e
        | .ok _ =>
          .ok { p with
            ExpressionAttributeNames := p.ExpressionAttributeNames ++ [("#sortKey", sb)],
            ScanIndexForward := some (pagination.sortDirection != some "desc") }
  match step1 with
  | .error e => .error e
  | .ok p =>
    let p := match expr.FilterExpression with
      | some fe => { p with FilterExpression := some fe }
      | none => p
    let p := if expr.ExpressionAttributeNames.isEmpty then p
      else { p with
        ExpressionAttributeNames :=
          p.ExpressionAttributeNames ++ expr.ExpressionAttributeNames }
    let p := if expr.ExpressionAttributeValues.isEmpty then p
      else { p with ExpressionAttributeValues := expr.ExpressionAttributeValues }
    .ok p

/-- The result record of `prepareQueryParameters`. -/
structure PrepResult where
  params : DynamoExpression
  limit : Nat
  offset : Nat
  page : Nat
  pagination : IPaginationQuery

/-- `prepareQueryParameters` (DynamoDBService.ts lines 74–108), parametrized over the
filter-expression builder (so that the claims can state that a pagination failure
happens before any expression is built) and over the external pagination-math
collaborator `calcPag` (`calculatePaginationValues` of `@denis_bruns/database-core`,
spec §6, a black box returning limit/offset/page): validate the pagination first,
short-circuit on `limit = 0`, otherwise build and decorate the expression. -/
def prepareQueryParametersWith
    (builder : List IFilterQuery → Except String DynamoExpression)
    (tableName : String)
    (calcPag : IPaginationQuery → Nat × Nat × Nat)
    (filters : List IFilterQuery) (pagination : IPaginationQuery) :
    Except String PrepResult :=
  match validatePagination pagination with
  | .error e => .error e
  | .ok _ =>
    let r := calcPag pagination
    if r.1 = 0 then
      .ok ⟨{ TableName := some tableName }, 0, 0, 1, pagination⟩
    else
      match builder filters with
      | .error e => .error e
      | .ok expr =>
        match buildQueryParams tableName expr pagination with
        | .error e => .error e
        | .ok params =>
          .ok ⟨{ params with TableName := some tableName }, r.1, r.2.1, r.2.2, pagination⟩

/-- `prepareQueryParameters` proper, with the repository's expression builder. -/
def prepareQueryParameters (pkName tableName : String)
    (calcPag : IPaginationQuery → Nat × Nat × Nat)
    (filters : List IFilterQuery) (pagination : IPaginationQuery) :
    Except String PrepResult :=
  prepareQueryParametersWith (buildFilterExpression pkName) tableName calcPag filters pagination

/-- C8: the result processor returns an empty sequence when `limit = 0`, and when
`offset ≥ items.length`; in both cases the result is produced before any decoding —
rendered in the pure model as: the empty result holds for *every* decoder, so no
decoded value is consulted. -/
theorem claim_C8_boundaries :
    (∀ (items : List TypedItem) (limit offset : Nat) (pagination : IPaginationQuery),
      limit = 0 →
      ∀ dec, processResultsWith dec items limit offset pagination = [])
  ∧ (∀ (items : List TypedItem) (limit offset : Nat) (pagination : IPaginationQuery),
      items.length ≤ offset →
      ∀ dec, processResultsWith dec items limit offset pagination = []) := by
  constructor
  · intro items limit offset pagination h dec
    rw [processResultsWith, if_pos h]
  · intro items limit offset pagination h dec
    rw [processResultsWith]
    by_cases hl : limit = 0
    · rw [if_pos hl]
    · rw [if_neg hl, if_pos h]

theorem claim_C8_boundaries_witness :
    processResultsWith fromDynamoDBValue [[("a", AttributeValue.S "x")]] 0 0 {} = []
  ∧ processResultsWith fromDynamoDBValue [[("a", AttributeValue.S "x")]] 5 1 {} = [] :=
  ⟨claim_C8_boundaries.1 [[("a", AttributeValue.S "x")]] 0 0 {} rfl fromDynamoDBValue,
   claim_C8_boundaries.2 [[("a", AttributeValue.S "x")]] 5 1 {} (by simp) fromDynamoDBValue⟩

/-- C6: `validatePagination` raises a "must be an integer" error exactly when some
present field among page, size, limit, offset does not coerce to an integer; every
error it raises has that form; and in the fetch pipeline the validation error is
raised before any filter expression is built — `prepareQueryParameters` fails with
the same error for *every* expression builder, as in the `page = 1.5` scenario. -/
theorem claim_C6_pagination_validation :
    (∀ p : IPaginationQuery,
      (∃ e, validatePagination p = .error e) ↔
        ((∃ v, p.page = some v ∧ isIntegerNumber v = false)
         ∨ (∃ v, p.size = some v ∧ isIntegerNumber v = false)
         ∨ (∃ v, p.limit = some v ∧ isIntegerNumber v = false)
         ∨ (∃ v, p.offset = some v ∧ isIntegerNumber v = false)))
  ∧ (∀ (p : IPaginationQuery) (e : String),
      validatePagination p = .error e → ∃ f, e = f ++ " must be an integer")
  ∧ (∀ (builder : List IFilterQuery → Except String DynamoExpression)
       (tableName : String) (calcPag : IPaginationQuery → Nat × Nat × Nat)
       (filters : List IFilterQuery) (p : IPaginationQuery) (e : String),
      validatePagination p = .error e →
      prepareQueryParametersWith builder tableName calcPag filters p = .error e)
  ∧ validatePagination { page := some (.num ⟨3, 2, by norm_num, by norm_num⟩) } =
      .error "Page must be an integer" := by
  refine ⟨?_, ?_, ?_, ?_⟩
  · intro p
    constructor
    · rintro ⟨e, h⟩
      rw [validatePagination] at h
      split_ifs at h with h1 h2 h3 h4
      · left
        cases hp : p.page with
        | none =>
          rw [hp] at h1
          exact absurd h1 (by decide)
        | some v =>
          rw [hp] at h1
          exact ⟨v, rfl, by simpa using h1⟩
      · right; left
        cases hp : p.size with
        | none =>
          rw [hp] at h2
          exact absurd h2 (by decide)
        | some v =>
          rw [hp] at h2
          exact ⟨v, rfl, by simpa using h2⟩
      · right; right; left
        cases hp : p.limit with
        | none => rw [hp] at h3; exact absurd h3 (by simp)
        | some v =>
          rw [hp] at h3
          simp at h3
          exact ⟨v, rfl, h3⟩
      · right; right; right
        cases hp : p.offset with
        | none =>
          rw [hp] at h4
          exact absurd h4 (by decide)
        | some v =>
          rw [hp] at h4
          exact ⟨v, rfl, by simpa using h4⟩
    · intro hcase
      rw [validatePagination]
      split_ifs with h1 h2 h3 h4
      · exact ⟨_, rfl⟩
      · exact ⟨_, rfl⟩
      · exact ⟨_, rfl⟩
      · exact ⟨_, rfl⟩
      · exfalso
        rcases hcase with ⟨v, hv, hint⟩ | ⟨v, hv, hint⟩ | ⟨v, hv, hint⟩ | ⟨v, hv, hint⟩
        · rw [hv] at h1
          simp at h1
          simp [hint] at h1
        · rw [hv] at h2
          simp at h2
          simp [hint] at h2
        · rw [hv] at h3
          simp at h3
          simp [hint] at h3
        · rw [hv] at h4
          simp at h4
          simp [hint] at h4
  · intro p e h
    rw [validatePagination] at h
    split_ifs at h
    · exact ⟨"Page", by cases h; rfl⟩
    · exact ⟨"Size", by cases h; rfl⟩
    · exact ⟨"Limit", by cases h; rfl⟩
    · exact ⟨"Offset", by cases h; rfl⟩
  · intro builder tableName calcPag filters p e h
    rw [prepareQueryParametersWith, h]
  · rfl

theorem claim_C6_pagination_validation_witness :
    prepareQueryParametersWith (fun _ => .ok {}) "table" (fun _ => (10, 0, 1)) []
      { page := some (.num ⟨3, 2, by norm_num, by norm_num⟩) } =
      .error "Page must be an integer" :=
  claim_C6_pagination_validation.2.2.1 (fun _ => .ok {}) "table" (fun _ => (10, 0, 1)) []
    { page := some (.num ⟨3, 2, by norm_num, by norm_num⟩) } "Page must be an integer" rfl

/-! ## Properties of the in-memory sort comparator -/

theorem chCmp_self : ∀ l : List Char, chCmp l l = 0 := by
  intro l
  induction l with
  | nil => rfl
  | cons c cs ih => rw [chCmp, if_neg (lt_irrefl c), if_neg (lt_irrefl c), ih]

theorem chCmp_antisym : ∀ a b : List Char, chCmp a b = -(chCmp b a) := by
  intro a
  induction a with
  | nil => intro b; cases b <;> rfl
  | cons c cs ih =>
    intro b
    cases b with
    | nil => rfl
    | cons d ds =>
      rcases lt_trichotomy c d with hcd | hcd | hcd
      · rw [chCmp, if_pos hcd, chCmp, if_neg (asymm hcd), if_pos hcd]
      · subst hcd
        rw [chCmp, if_neg (lt_irrefl c), if_neg (lt_irrefl c),
          chCmp, if_neg (lt_irrefl c), if_neg (lt_irrefl c)]
        exact ih ds
      · rw [chCmp, if_neg (asymm hcd), if_pos hcd, chCmp, if_pos hcd]
        decide

theorem localeCompare_antisym (s t : String) : localeCompare s t = -(localeCompare t s) :=
  chCmp_antisym s.data t.data

theorem cmpVal_antisym (sf : Bool) (a b : JVal) : cmpVal sf a b = -(cmpVal sf b a) := by
  cases a <;> cases b <;> cases sf <;>
    simp only [cmpVal, jsTypeof, numOf, if_true, if_false] <;>
    first
      | rfl
      | exact localeCompare_antisym _ _
      | (split <;> first | omega | exact localeCompare_antisym _ _)
      | norm_num

theorem itemLe_total (dec : AttributeValue → JVal) (pagination : IPaginationQuery)
    (sortKey : String) (a b : TypedItem) :
    itemLe dec pagination sortKey a b || itemLe dec pagination sortKey b a := by
  rw [itemLe, itemLe, itemCmp, itemCmp,
    cmpVal_antisym (pagination.sortDirection != some "desc")
      (sortKeyValWith dec sortKey b) (sortKeyValWith dec sortKey a)]
  simp only [Bool.or_eq_true, decide_eq_true_eq]
  omega

/-- The canonical stable sort of `l` under the comparator `le`, as the spec's words
describe it: tag each element with its original position, sort by the comparator
breaking ties by position, and drop the tags.  Elements with equal keys therefore
keep their original relative order. -/
def stableSortBy {α : Type} (le : α → α → Bool) (l : List α) : List α :=
  (List.mergeSort l.enum (List.enumLE le)).map (·.2)

/-- C7: when `sortBy` is set, the sequence produced by the result processor before
slicing is exactly the stable sort of the raw items under the comparator of the
source (key = decoded value at `sortBy`, empty string when absent; strings by locale
comparison, numbers by subtraction, anything else by string-coerced locale
comparison; ascending unless `sortDirection = "desc"`).  It is a permutation of the
input; and whenever the comparator is transitive on the items at hand, the output is
pairwise ordered by it. -/
theorem claim_C7_in_memory_sort (items : List TypedItem)
    (pagination : IPaginationQuery) (sortKey : String)
    (h : pagination.sortBy = some sortKey) :
    sortedResultsWith fromDynamoDBValue items pagination =
      stableSortBy (itemLe fromDynamoDBValue pagination sortKey) items
  ∧ List.Perm (sortedResultsWith fromDynamoDBValue items pagination) items
  ∧ ((∀ a ∈ items, ∀ b ∈ items, ∀ c ∈ items,
        itemLe fromDynamoDBValue pagination sortKey a b = true →
        itemLe fromDynamoDBValue pagination sortKey b c = true →
        itemLe fromDynamoDBValue pagination sortKey a c = true) →
      (sortedResultsWith fromDynamoDBValue items pagination).Pairwise
        (fun a b => itemLe fromDynamoDBValue pagination sortKey a b = true)) := by
  have hsr : sortedResultsWith fromDynamoDBValue items pagination =
      List.mergeSort items (itemLe fromDynamoDBValue pagination sortKey) := by
    rw [sortedResultsWith, h]
  refine ⟨?_, ?_, ?_⟩
  · rw [hsr, stableSortBy, List.mergeSort_enum]
  · rw [hsr]
    exact List.mergeSort_perm items _
  · intro htrans
    rw [hsr]
    have trans' : ∀ (x y z : {a // a ∈ items}),
        (fun u v : {a // a ∈ items} =>
          itemLe fromDynamoDBValue pagination sortKey u.1 v.1) x y →
        (fun u v : {a // a ∈ items} =>
          itemLe fromDynamoDBValue pagination sortKey u.1 v.1) y z →
        (fun u v : {a // a ∈ items} =>
          itemLe fromDynamoDBValue pagination sortKey u.1 v.1) x z :=
      fun x y z hxy hyz => htrans _ x.2 _ y.2 _ z.2 hxy hyz
    have total' : ∀ (x y : {a // a ∈ items}),
        (fun u v : {a // a ∈ items} =>
          itemLe fromDynamoDBValue pagination sortKey u.1 v.1) x y ||
        (fun u v : {a // a ∈ items} =>
          itemLe fromDynamoDBValue pagination sortKey u.1 v.1) y x :=
      fun x y => itemLe_total fromDynamoDBValue pagination sortKey x.1 y.1
    have hs := List.sorted_mergeSort trans' total' items.attach
    have hmap := List.map_mergeSort
      (r := fun u v : {a // a ∈ items} =>
        itemLe fromDynamoDBValue pagination sortKey u.1 v.1)
      (s := itemLe fromDynamoDBValue pagination sortKey)
      (f := Subtype.val) (l := items.attach) (fun a _ b _ => rfl)
    rw [List.attach_map_subtype_val] at hmap
    rw [← hmap]
    exact List.Pairwise.map Subtype.val (fun x y hxy => hxy) hs

theorem claim_C7_in_memory_sort_witness :
    (sortedResultsWith fromDynamoDBValue [[("k", AttributeValue.N "1")]]
        { sortBy := some "k" } =
      stableSortBy (itemLe fromDynamoDBValue { sortBy := some "k" } "k")
        [[("k", AttributeValue.N "1")]])
  ∧ List.Perm
      (sortedResultsWith fromDynamoDBValue [[("k", AttributeValue.N "1")]]
        { sortBy := some "k" })
      [[("k", AttributeValue.N "1")]]
  ∧ (sortedResultsWith fromDynamoDBValue [[("k", AttributeValue.N "1")]]
        { sortBy := some "k" }).Pairwise
      (fun a b => itemLe fromDynamoDBValue { sortBy := some "k" } "k" a b = true) := by
  have h := claim_C7_in_memory_sort [[("k", AttributeValue.N "1")]]
    { sortBy := some "k" } "k" rfl
  refine ⟨h.1, h.2.1, h.2.2 ?_⟩
  intro a ha b hb c hc h1 h2
  simp only [List.mem_singleton] at ha hb hc
  subst ha; subst hb; subst hc
  exact h2
